import Mathlib

/-!
Verification of the time-domain synchronization and signal-mapping layer of
the motion-webapp repository.

The embedding covers:

* the playback clock of `src/components/ThreeView.tsx` (`startLoop`, the
  `setTime` updater, `handleGraphSeek`, `onReadyDuration`), modelled over
  exact rational arithmetic;
* the playhead projection of `src/components/SimpleGraph.tsx`
  (`currentJsonTime`);
* the sheet normalizer of `src/utils/excel.ts` (`detectHeaderAndExtract`,
  `dedupeHeaders`, `toObjects`, `normalizeSheet`, `averageDelta`).

JavaScript primitives (`%` on numbers, `Math.floor`, `Math.round`,
`Math.min`/`max`, `String.prototype.trim`, `toLowerCase`, `replace`,
`Number(...)`, `Date.parse`) are modelled by explicit executable functions;
`Date.parse` is kept as an explicit function parameter since no claim
depends on a particular date format.
-/

namespace Motion

/-! ### JavaScript numeric primitives, over exact rational arithmetic -/

/-- Truncation toward zero, as JavaScript does for the `%` operator. -/
def ratTrunc (x : ℚ) : ℤ := if 0 ≤ x then ⌊x⌋ else ⌈x⌉

/-- The JavaScript remainder operator `x % d` (sign follows the dividend). -/
def jsMod (x d : ℚ) : ℚ := x - d * ratTrunc (x / d)

/-- The wrap idiom `((x % d) + d) % d` used by the playback loop and by
`onReadyDuration` to bring a time into the interval from 0 to `d`. -/
def jsWrap (x d : ℚ) : ℚ := jsMod (jsMod x d + d) d

/-- JavaScript `Math.round`: round half toward positive infinity. -/
def jsRound (x : ℚ) : ℤ := ⌊x + 1/2⌋

/-! ### Playback clock (ThreeView.tsx, `startLoop` lines 590-630) -/

/-- Frames per second; source constant `FPS = 120` (ThreeView.tsx line 30). -/
def FPS : ℚ := 120

/-- The mutable playback state owned by the loop: the current animation time
(React state `time`) and the sub-frame accumulator (`subFrameAccRef`). -/
structure PlayState where
  time : ℚ
  acc : ℚ
deriving Repr, DecidableEq

/-- The per-frame inputs of one call of the `loop` body: the `playing` and
`snapFrames` flags, the `speed` setting and the measured real-time delta
`dtRaw = (ts - lastTs) / 1000` in seconds. -/
structure TickInput where
  playing : Bool
  speed : ℚ
  snapFrames : Bool
  dtRaw : ℚ

/-- One advancement step of the playback clock: the body of the `setTime`
updater inside `loop` (ThreeView.tsx lines 593-624), together with its
writes to `subFrameAccRef`.  `dt` is clamped to the interval from 0 to
0.05, the speed multiplier to the interval from 0.1 to 2. -/
def tick (duration : ℚ) (inp : TickInput) (st : PlayState) : PlayState :=
  let dt := min (max inp.dtRaw 0) (1/20)
  if inp.playing = false ∨ duration ≤ 0 then st
  else
    let s := min 2 (max (1/10) inp.speed)
    let delta := dt * s
    if inp.snapFrames = false then
      let next := st.time + delta
      let next := if 0 < duration then jsWrap next duration else next
      { st with time := next }
    else
      let step := 1 / FPS
      let acc := st.acc + delta
      let frames : ℤ := ⌊acc / step⌋
      let acc2 := acc - frames * step
      if frames ≤ 0 then { st with acc := acc2 }
      else
        let next := st.time + frames * step
        let next := if 0 < duration then
            min (max 0 (jsWrap next duration)) (max 0 (duration - step / 2))
          else next
        { time := next, acc := acc2 }

/-- A sequence of animation-frame callbacks applied in order. -/
def runTicks (duration : ℚ) (l : List TickInput) (st : PlayState) : PlayState :=
  l.foldl (fun s i => tick duration i s) st

/-- Seek driven by pointer interaction on a chart: `handleGraphSeek`
(ThreeView.tsx lines 638-651).  Returns the new value of `time`; when no
branch fires, `setTime` is not called and the previous time is returned. -/
def handleGraphSeek (duration jsonDuration : ℚ) (snapFrames : Bool)
    (tJson cur : ℚ) : ℚ :=
  if 0 < duration ∧ 0 < jsonDuration then
    let t := tJson / jsonDuration * duration
    let t := if snapFrames then (jsRound (t * FPS) : ℚ) / FPS else t
    max 0 (min duration t)
  else if 0 < duration then
    let t := max 0 (min duration tJson)
    let t := if snapFrames then (jsRound (t * FPS) : ℚ) / FPS else t
    t
  else cur

/-- Seek as a transformation of the full playback state: `handleGraphSeek`
only ever calls `setTime`; the sub-frame accumulator is not touched. -/
def handleGraphSeekState (duration jsonDuration : ℚ) (snapFrames : Bool)
    (tJson : ℚ) (st : PlayState) : PlayState :=
  { st with time := handleGraphSeek duration jsonDuration snapFrames tJson st.time }

/-- Playhead projection from animation time to signal time:
`currentJsonTime` in SimpleGraph.tsx lines 164-166, where `xMax` is the
span of the `t` values of the plotted channel. -/
def currentJsonTime (tAnim fbxDuration xMax : ℚ) : ℚ :=
  if 0 < fbxDuration ∧ 0 < xMax then tAnim / fbxDuration * xMax else tAnim

/-- A time value lying on the 120 fps frame grid: an integer multiple of
the frame step `1 / FPS = 1/120`. -/
def frameAligned (x : ℚ) : Prop := ∃ k : ℤ, x = k / 120

/-! ### JavaScript string primitives, modelled over character lists -/

/-- ASCII lower-casing of one character, the model of `toLowerCase` for the
header material the claims exercise. -/
def lowerChar (c : Char) : Char :=
  if 65 ≤ c.toNat ∧ c.toNat ≤ 90 then Char.ofNat (c.toNat + 32) else c

/-- Model of `String.prototype.toLowerCase` (ASCII range). -/
def jsToLower (s : String) : String := ⟨s.data.map lowerChar⟩

/-- Whitespace for the purposes of `String.prototype.trim`. -/
def wsChar (c : Char) : Bool := c == ' ' || c == '\t' || c == '\n' || c == '\r'

/-- Model of `String.prototype.trim`. -/
def jsTrim (s : String) : String :=
  ⟨((s.data.dropWhile wsChar).reverse.dropWhile wsChar).reverse⟩

/-- Model of `replace(/,/g, "")`: remove every comma. -/
def stripCommas (s : String) : String :=
  ⟨s.data.filter (fun c => !(c == ','))⟩

/-- Substring test over character lists. -/
def infixOfAux (pat : List Char) : List Char → Bool
  | [] => pat.isEmpty
  | c :: rest => pat.isPrefixOf (c :: rest) || infixOfAux pat rest

/-- Model of a substring regex test such as `/frame/i` after lower-casing:
does `pat` occur contiguously inside `s`. -/
def strContains (s pat : String) : Bool := infixOfAux pat.data s.data

/-- One spreadsheet cell as delivered by `sheet_to_json` with
`defval: null, raw: true`: a number, a string, or null. -/
inductive Cell where
  | num (q : ℚ)
  | str (s : String)
  | null
deriving Repr, DecidableEq

/-- Rendering of a rational cell value, standing in for the JavaScript
number-to-string conversion in `String(v)` (only whole numbers appear in
header positions in the claims). -/
def ratToString (q : ℚ) : String :=
  if q.den = 1 then toString q.num else toString q

/-- The conversion `v == null ? "" : String(v)` applied to a raw header
cell (excel.ts line 79). -/
def cellToString : Cell → String
  | .num q => ratToString q
  | .str s => s
  | .null => ""

/-! ### Header detection (excel.ts, `detectHeaderAndExtract` lines 59-89) -/

/-- A cell counted by `nonEmpty`: a string whose trim is not empty. -/
def nonEmptyStringCell : Cell → Bool
  | .str s => !(jsTrim s == "")
  | _ => false

/-- A cell matching `/^(t|time|timestamp)$/i` after trimming. -/
def timeNameCell : Cell → Bool
  | .str s =>
      let t := jsToLower (jsTrim s)
      t == "t" || t == "time" || t == "timestamp"
  | _ => false

/-- A cell matching `/frame/i` after trimming. -/
def frameNameCell : Cell → Bool
  | .str s => strContains (jsToLower (jsTrim s)) "frame"
  | _ => false

/-- The score of one candidate header row (excel.ts lines 66-71):
non-empty string cells, plus 3 for a time name, plus 2 for a frame name,
minus 3 when the row has at most one non-empty string cell. -/
def rowScore (row : List Cell) : Int :=
  let nonEmpty : Int := (row.filter nonEmptyStringCell).length
  let score := nonEmpty + (if row.any timeNameCell then 3 else 0)
      + (if row.any frameNameCell then 2 else 0)
  if nonEmpty ≤ 1 then score - 3 else score

/-- Number of rows scanned: `Math.min(table.length, 20)`. -/
def scanUpto (table : List (List Cell)) : Nat := min table.length 20

/-- The selection loop of `detectHeaderAndExtract`: starting from
`bestIdx = 0`, `bestScore = -1`, process row indices in increasing order
and update only on a strictly larger score. -/
def bestHeaderAux (score : Nat → Int) : Nat → Nat × Int
  | 0 => (0, -1)
  | n + 1 =>
      let p := bestHeaderAux score n
      if p.2 < score n then (n, score n) else p

/-- The chosen header row index. -/
def headerIdx (table : List (List Cell)) : Nat :=
  (bestHeaderAux (fun i => rowScore (table.getD i [])) (scanUpto table)).1

/-! ### Header materialization (excel.ts, lines 79-88 and 104-112) -/

/-- Rendering of the n-th occurrence of a header name: the name itself for
the first occurrence, otherwise the template `base (n)`. -/
def renderName (h : String) (n : Nat) : String :=
  if n = 1 then h else h ++ " (" ++ Nat.repr n ++ ")"

/-- Lookup in the `seen` occurrence-count map, modelled as an association
list whose most recent entry for a key comes first. -/
def lookupCount (seen : List (String × Nat)) (h : String) : Nat :=
  match seen.find? (fun p => p.1 == h) with
  | some p => p.2
  | none => 0

/-- The traversal of `dedupeHeaders`: each name is rendered with its
running occurrence count, and the count map is updated. -/
def dedupeAux : List (String × Nat) → List String → List String
  | _, [] => []
  | seen, h :: rest =>
      let n := lookupCount seen h + 1
      renderName h n :: dedupeAux ((h, n) :: seen) rest

/-- `dedupeHeaders` (excel.ts lines 104-112). -/
def dedupeHeaders (hs : List String) : List String := dedupeAux [] hs

/-- Header materialization from the chosen raw row (excel.ts lines 79-85):
stringify, trim, replace empties by the positional `EMPTY (i+1)`
placeholder, then deduplicate. -/
def materializeHeaders (raw : List Cell) : List String :=
  dedupeHeaders ((raw.map cellToString).mapIdx fun i h =>
    let t := jsTrim h
    if t == "" then "EMPTY " ++ Nat.repr (i + 1) else t)

/-- `detectHeaderAndExtract` (excel.ts lines 59-89): the materialized
headers of the best-scoring row together with all rows after it. -/
def detectHeaderAndExtract (table : List (List Cell)) :
    List String × List (List Cell) :=
  let bIdx := headerIdx table
  (materializeHeaders (table.getD bIdx []), table.drop (bIdx + 1))

/-- `toObjects` (excel.ts lines 91-102): zip each data row against the
headers by position; missing trailing cells become null.  Header names are
pairwise distinct after deduplication, so an association list stands in
for the JavaScript object. -/
def toObjects (headers : List String) (dataRows : List (List Cell)) :
    List (List (String × Cell)) :=
  dataRows.map fun r => headers.mapIdx fun i k => (k, r.getD i Cell.null)

/-! ### Sheet normalization (excel.ts, `normalizeSheet` lines 114-178) -/

/-- Character of a decimal digit. -/
def isDigitChar (c : Char) : Bool := 48 ≤ c.toNat && c.toNat ≤ 57

/-- Numeric value of a decimal digit character. -/
def charVal (c : Char) : ℕ := c.toNat - 48

/-- Value of a big-endian list of decimal digit characters. -/
def digitsVal (l : List Char) : ℕ := l.foldl (fun a c => 10 * a + charVal c) 0

/-- Model of the JavaScript `Number(...)` coercion of a string, restricted
to optionally signed decimal literals, which covers every cell the claims
exercise; `none` plays the role of `NaN`.  The empty string coerces to 0,
as in JavaScript. -/
def jsNumber (s : String) : Option ℚ :=
  match s.data with
  | [] => some 0
  | l =>
    let sign : ℚ := match l with
      | '-' :: _ => -1
      | _ => 1
    let l₁ : List Char := match l with
      | '-' :: t => t
      | '+' :: t => t
      | _ => l
    let ip := l₁.takeWhile (fun c => !(c == '.'))
    let rest := l₁.dropWhile (fun c => !(c == '.'))
    match rest with
    | [] =>
        if !ip.isEmpty && ip.all isDigitChar then
          some (sign * (digitsVal ip : ℚ))
        else none
    | _ :: frac =>
        if frac.any (fun c => c == '.') then none
        else if ip.isEmpty && frac.isEmpty then none
        else if ip.all isDigitChar && frac.all isDigitChar then
          some (sign * ((digitsVal ip : ℚ)
            + (digitsVal frac : ℚ) / (10 : ℚ) ^ frac.length))
        else none

/-- The cell coercion `num` of `normalizeSheet` (excel.ts lines 126-132):
numbers pass through, null is NaN, strings are trimmed, stripped of commas
and parsed; non-finite results are NaN (`none`). -/
def num (v : Cell) : Option ℚ :=
  match v with
  | .num q => some q
  | .null => none
  | .str s => jsNumber (stripCommas (jsTrim s))

/-- Access `r[k]` on an objectified row. -/
def getCell (r : List (String × Cell)) (k : String) : Option Cell :=
  (r.find? (fun p => p.1 == k)).map Prod.snd

/-- The looser per-value coercion used by `averageDelta` (excel.ts line
184): `typeof x === "number" ? x : Number(x)` — null coerces to 0,
undefined to NaN, strings are parsed without comma stripping. -/
def coerceNum (v : Option Cell) : Option ℚ :=
  match v with
  | some (.num q) => some q
  | some (.str s) => jsNumber (jsTrim s)
  | some .null => some 0
  | none => none

/-- `averageDelta` (excel.ts lines 180-191): mean absolute successive
difference of the finite values in a column, NaN (`none`) for fewer than
two values. -/
def averageDelta (rows : List (List (String × Cell))) (key : String) :
    Option ℚ :=
  let vals := rows.filterMap (fun r => coerceNum (getCell r key))
  if vals.length < 2 then none
  else some (((vals.zip vals.tail).foldl (fun a p => a + |p.1 - p.2|) 0)
      / ((vals.length : ℚ) - 1))

/-- Test for the lazy regex `/(time).*?(s|sec|seconds)/i` on a lowered key:
an occurrence of `time` followed, at any later position, by an `s` (all
three alternatives begin with `s`, so the boolean test reduces to this). -/
def timeThenS : List Char → Bool
  | [] => false
  | c :: rest =>
      (if "time".data.isPrefixOf (c :: rest)
        then ((c :: rest).drop 4).any (fun x => x == 's') else false)
      || timeThenS rest

/-- The fourth time-key pattern of excel.ts line 122. -/
def timeSecondsPattern (k : String) : Bool := timeThenS (jsToLower k).data

/-- The time-column search of excel.ts lines 118-122, first match wins:
exact `t`, exact `time`, substring `timestamp`, then `time` followed by a
seconds marker. -/
def findTimeKey (keys : List String) : Option String :=
  (keys.find? (fun k => jsToLower k == "t")).orElse (fun _ =>
  (keys.find? (fun k => jsToLower k == "time")).orElse (fun _ =>
  (keys.find? (fun k => strContains (jsToLower k) "timestamp")).orElse (fun _ =>
  keys.find? timeSecondsPattern)))

/-- The `msKey` search `/(ms|millisecond)/i` (excel.ts line 123). -/
def findMsKey (keys : List String) : Option String :=
  keys.find? (fun k =>
    strContains (jsToLower k) "ms" || strContains (jsToLower k) "millisecond")

/-- The `frameKey` search `/^frame(s)?$/i` or `/frame ?index/i`
(excel.ts line 124). -/
def findFrameKey (keys : List String) : Option String :=
  keys.find? (fun k =>
    jsToLower k == "frame" || jsToLower k == "frames"
      || strContains (jsToLower k) "frame index"
      || strContains (jsToLower k) "frameindex")

/-- The value-column skip regex `/^t$|^time$|timestamp|ms|millisecond/i`
(excel.ts line 169). -/
def skipValueKey (k : String) : Bool :=
  jsToLower k == "t" || jsToLower k == "time"
    || strContains (jsToLower k) "timestamp"
    || strContains (jsToLower k) "ms"
    || strContains (jsToLower k) "millisecond"

/-- One normalized output row: the reserved `t` key and the remaining
finite numeric channels. -/
structure NRow where
  t : ℚ
  vals : List (String × ℚ)
deriving Repr, DecidableEq

/-- `normalizeSheet` (excel.ts lines 114-178).  `dateParse` is the model
of `Date.parse` (NaN as `none`); it is threaded explicitly because the
source consults it only on string-valued timestamp cells. -/
def normalizeSheet (dateParse : String → Option ℚ)
    (rowsRaw : List (List (String × Cell))) (fpsGuess : ℚ) : List NRow :=
  if rowsRaw.isEmpty then []
  else
    let keys := (rowsRaw.headD []).map Prod.fst
    let timeKey := findTimeKey keys
    let msKey := findMsKey keys
    let frameKey := findFrameKey keys
    let hasTsKey := keys.any (fun k => strContains (jsToLower k) "timestamp")
    let tsKey := (keys.find? (fun k => strContains (jsToLower k) "timestamp")).getD ""
    let ts0 : ℚ :=
      if timeKey = none ∧ hasTsKey = true then
        match (rowsRaw.find? (fun r =>
            match getCell r tsKey with
            | some Cell.null => false
            | none => false
            | some _ => true)).bind (fun r => getCell r tsKey) with
        | some (.num q) => q
        | some (.str s) => (dateParse s).getD 0
        | _ => 0
      else 0
    (List.range rowsRaw.length).filterMap (fun i =>
      let r := rowsRaw.getD i []
      let tOpt : Option ℚ :=
        match timeKey with
        | some tk =>
            match num ((getCell r tk).getD Cell.null) with
            | some n =>
                let msHeur : Bool :=
                  match averageDelta rowsRaw tk with
                  | some a => if 10 < a then true else false
                  | none => false
                let looksMs : Bool :=
                  msKey.isSome || (if 50 < n then msHeur else false)
                some (if looksMs = true then n / 1000 else n)
            | none => none
        | none =>
          match frameKey with
          | some fk =>
              (num ((getCell r fk).getD Cell.null)).map
                (fun f => f / (if fpsGuess = 0 then 120 else fpsGuess))
          | none =>
              if hasTsKey = true then
                (match getCell r tsKey with
                  | some (.num q) => some q
                  | some (.str s) => dateParse s
                  | _ => none).map (fun ts => (ts - ts0) / 1000)
              else none
      let tSec := tOpt.getD
        (if 1 < rowsRaw.length
          then (i : ℚ) / ((rowsRaw.length : ℚ) - 1) else 0)
      let vals := keys.filterMap (fun k =>
        if some k = timeKey ∨ some k = frameKey then none
        else if skipValueKey k then none
        else (num ((getCell r k).getD Cell.null)).map (fun v => (k, v)))
      if vals.isEmpty then none else some ⟨tSec, vals⟩)

/-! ### Concrete inputs used by the claims -/

/-- The millisecond-inference example of the spec: a `time` column with
values 0, 16, 33, 49, 66 next to one data channel. -/
def msRows : List (List (String × Cell)) :=
  [[("time", Cell.num 0), ("v", Cell.num 1)],
   [("time", Cell.num 16), ("v", Cell.num 2)],
   [("time", Cell.num 33), ("v", Cell.num 3)],
   [("time", Cell.num 49), ("v", Cell.num 4)],
   [("time", Cell.num 66), ("v", Cell.num 5)]]

/-- A sheet whose only time-like column is a `timestamp` column holding
epoch milliseconds. -/
def tsRows : List (List (String × Cell)) :=
  [[("timestamp", Cell.num 1700000000000), ("v", Cell.num 1)],
   [("timestamp", Cell.num 1700000000016), ("v", Cell.num 2)],
   [("timestamp", Cell.num 1700000000033), ("v", Cell.num 3)]]

/-- A table whose rows all score at or below the -1 sentinel: a numeric
row (score -3) followed by a single-string row (score -2). -/
def titleTable : List (List Cell) := [[Cell.num 1], [Cell.str "a"]]

/-- The header-at-index-2 scenario of the spec. -/
def scenarioTable : List (List Cell) :=
  [[Cell.str "Trial A"], [Cell.str "", Cell.str ""],
   [Cell.str "t", Cell.str "HipRotation"],
   [Cell.num 0, Cell.num 10], [Cell.num (1/10), Cell.num 12]]

/-- No ( character occurs in the string, ruling out collisions with the
generated `name (k)` forms. -/
def parenFree (s : String) : Prop := '(' ∉ s.data

instance (s : String) : Decidable (parenFree s) := by
  unfold parenFree
  infer_instance

/-- A concrete `Date.parse` model that always returns NaN; the numeric
inputs of the claims never reach it. -/
def noDate : String → Option ℚ := fun _ => none

end Motion

namespace Motion

/-! ### Helper lemmas about the JavaScript remainder -/

theorem jsMod_nonneg_lt {d : ℚ} (hd : 0 < d) {x : ℚ} (hx : 0 ≤ x) :
    0 ≤ jsMod x d ∧ jsMod x d < d := by
  have hdiv : (0:ℚ) ≤ x / d := div_nonneg hx hd.le
  have htr : ratTrunc (x / d) = ⌊x / d⌋ := by simp [ratTrunc, hdiv]
  have hfr : jsMod x d = d * Int.fract (x / d) := by
    rw [jsMod, htr, Int.fract]
    field_simp
  constructor
  · rw [hfr]
    exact mul_nonneg hd.le (Int.fract_nonneg _)
  · rw [hfr]
    calc d * Int.fract (x / d) < d * 1 :=
          (mul_lt_mul_left hd).2 (Int.fract_lt_one _)
    _ = d := mul_one d

theorem jsMod_neg_bounds {d : ℚ} (hd : 0 < d) {x : ℚ} (hx : x < 0) :
    -d < jsMod x d ∧ jsMod x d ≤ 0 := by
  have hdiv : x / d < 0 := div_neg_of_neg_of_pos hx hd
  have htr : ratTrunc (x / d) = ⌈x / d⌉ := by
    have : ¬ (0:ℚ) ≤ x / d := not_le.2 hdiv
    simp [ratTrunc, this]
  have h1 : x / d ≤ (⌈x / d⌉ : ℚ) := Int.le_ceil _
  have h2 : (⌈x / d⌉ : ℚ) < x / d + 1 := Int.ceil_lt_add_one _
  constructor
  · rw [jsMod, htr]
    have := (mul_lt_mul_left hd).2 h2
    rw [mul_add, mul_one, mul_div_cancel₀ _ hd.ne'] at this
    linarith
  · rw [jsMod, htr]
    have := (mul_le_mul_left hd).2 h1
    rw [mul_div_cancel₀ _ hd.ne'] at this
    linarith

theorem jsMod_nonneg_arg {d : ℚ} (hd : 0 < d) (x : ℚ) :
    0 ≤ jsMod x d + d := by
  rcases le_or_lt 0 x with hx | hx
  · have := (jsMod_nonneg_lt hd hx).1
    linarith
  · have := (jsMod_neg_bounds hd hx).1
    linarith

theorem jsWrap_mem {d : ℚ} (hd : 0 < d) (x : ℚ) :
    0 ≤ jsWrap x d ∧ jsWrap x d < d :=
  jsMod_nonneg_lt hd (jsMod_nonneg_arg hd x)

theorem jsMod_le_self {d : ℚ} (hd : 0 < d) {x : ℚ} (hx : 0 ≤ x) :
    jsMod x d ≤ x := by
  have hdiv : (0:ℚ) ≤ x / d := div_nonneg hx hd.le
  have htr : ratTrunc (x / d) = ⌊x / d⌋ := by simp [ratTrunc, hdiv]
  have hfl : (0:ℤ) ≤ ⌊x / d⌋ := Int.floor_nonneg.2 hdiv
  have : (0:ℚ) ≤ d * (⌊x / d⌋ : ℚ) := by
    apply mul_nonneg hd.le
    exact_mod_cast hfl
  rw [jsMod, htr]
  linarith

theorem jsWrap_eq_jsMod {d : ℚ} (hd : 0 < d) {x : ℚ} (hx : 0 ≤ x) :
    jsWrap x d = jsMod x d := by
  have hm := jsMod_nonneg_lt hd hx
  have hy1 : d ≤ jsMod x d + d := by linarith [hm.1]
  have hy2 : jsMod x d + d < 2 * d := by linarith [hm.2]
  have hdiv : (1:ℚ) ≤ (jsMod x d + d) / d := (le_div_iff₀ hd).2 (by linarith)
  have hdiv2 : (jsMod x d + d) / d < 2 := (div_lt_iff₀ hd).2 (by linarith)
  have hfl : ⌊(jsMod x d + d) / d⌋ = 1 := by
    apply Int.floor_eq_iff.2
    constructor
    · exact_mod_cast hdiv
    · push_cast
      linarith
  have htr : ratTrunc ((jsMod x d + d) / d) = 1 := by
    have hnn : (0:ℚ) ≤ (jsMod x d + d) / d := by linarith
    simp [ratTrunc, hnn, hfl]
  rw [jsWrap, jsMod, htr]
  push_cast
  ring

theorem jsWrap_le_self {d : ℚ} (hd : 0 < d) {x : ℚ} (hx : 0 ≤ x) :
    jsWrap x d ≤ x := by
  rw [jsWrap_eq_jsMod hd hx]
  exact jsMod_le_self hd hx

theorem jsMod_sub_int_mul {d : ℚ} (x : ℚ) :
    ∃ k : ℤ, jsMod x d = x - d * k :=
  ⟨ratTrunc (x / d), rfl⟩

theorem jsWrap_sub_int_mul (d x : ℚ) :
    ∃ k : ℤ, jsWrap x d = x - d * k := by
  obtain ⟨k₁, h₁⟩ := jsMod_sub_int_mul (d := d) x
  obtain ⟨k₂, h₂⟩ := jsMod_sub_int_mul (d := d) (jsMod x d + d)
  refine ⟨k₁ + k₂ - 1, ?_⟩
  rw [jsWrap, h₂, h₁]
  push_cast
  ring

/-! ### Per-tick facts about the playback clock -/

theorem tick_time_mem {d : ℚ} (hd : 0 < d) (inp : TickInput) (st : PlayState)
    (h0 : 0 ≤ st.time) (h1 : st.time < d) :
    0 ≤ (tick d inp st).time ∧ (tick d inp st).time < d := by
  unfold tick
  by_cases hp : inp.playing = false ∨ d ≤ 0
  · simp only [hp, if_true]
    exact ⟨h0, h1⟩
  · simp only [hp, if_false]
    by_cases hsnap : inp.snapFrames = false
    · simp only [hsnap, if_true, hd, if_pos]
      exact jsWrap_mem hd _
    · simp only [hsnap, if_false]
      set dt := min (max inp.dtRaw 0) (1/20) with hdt
      set s := min 2 (max (1/10) inp.speed) with hs
      set acc := st.acc + dt * s with hacc
      set frames : ℤ := ⌊acc / (1 / FPS)⌋ with hframes
      by_cases hf : frames ≤ 0
      · simp only [hf, if_true]
        exact ⟨h0, h1⟩
      · simp only [hf, if_false, hd, if_pos]
        constructor
        · exact le_min (le_max_left _ _) (le_max_left _ _)
        · apply lt_of_le_of_lt (min_le_right _ _)
          apply max_lt hd
          have hstep : (0:ℚ) < 1 / FPS / 2 := by norm_num [FPS]
          linarith

theorem runTicks_time_mem {d : ℚ} (hd : 0 < d) (l : List TickInput)
    (st : PlayState) (h0 : 0 ≤ st.time) (h1 : st.time < d) :
    0 ≤ (runTicks d l st).time ∧ (runTicks d l st).time < d := by
  induction l generalizing st with
  | nil => exact ⟨h0, h1⟩
  | cons i rest ih =>
      have hstep := tick_time_mem hd i st h0 h1
      exact ih (tick d i st) hstep.1 hstep.2

/-- C1.  Clock wrap invariant: with a positive animation duration, any
sequence of tick calls (arbitrary per-call real-time deltas, speed settings,
playing flags, and quantization on or off) keeps `currentTime` inside the
half-open interval from 0 (inclusive) to `animationDuration` (exclusive),
starting from any in-range state such as the initial `time = 0`. -/
theorem clock_wrap_invariant (d : ℚ) (hd : 0 < d) (l : List TickInput)
    (st : PlayState) (h0 : 0 ≤ st.time) (h1 : st.time < d) :
    0 ≤ (runTicks d l st).time ∧ (runTicks d l st).time < d :=
  runTicks_time_mem hd l st h0 h1

/-- Witness for C1 at a concrete input: duration 1, a single playing tick of
a 16 ms frame at speed 1, from the initial state. -/
theorem clock_wrap_invariant_witness :
    (0:ℚ) < 1 ∧ (0:ℚ) ≤ 0 ∧ (0:ℚ) < 1 ∧
      (0 ≤ (runTicks 1 [⟨true, 1, false, 2/125⟩] ⟨0, 0⟩).time ∧
        (runTicks 1 [⟨true, 1, false, 2/125⟩] ⟨0, 0⟩).time < 1) :=
  ⟨by norm_num, by norm_num, by norm_num,
    clock_wrap_invariant 1 (by norm_num) [⟨true, 1, false, 2/125⟩] ⟨0, 0⟩
      (by norm_num) (by norm_num)⟩

/-- C7 (amended).  The real-time delta is clamped to the interval from 0 to
0.05 seconds before use, and a single tick advances `currentTime` by at most
the clamped delta times the clamped speed multiplier: at most 0.05 seconds
times the clamped speed (hence at most 0.1 seconds = 100 ms, the bound
reached at speed 2), plus, when quantizing, the sub-frame time already
buffered in the accumulator.  The 50 ms bound claimed for every speed
setting holds only for the unquantized branch with speed at most 1. -/
theorem tick_delta_bound (d : ℚ) (inp : TickInput) (st : PlayState)
    (ht : 0 ≤ st.time) (ha : 0 ≤ st.acc) :
    (0 ≤ min (max inp.dtRaw 0) (1/20) ∧ min (max inp.dtRaw 0) (1/20) ≤ 1/20)
    ∧ (tick d inp st).time ≤ st.time + st.acc + 1/10
    ∧ (inp.snapFrames = false →
        (tick d inp st).time ≤ st.time + min 2 (max (1/10) inp.speed) * (1/20)) := by
  have hclamp : 0 ≤ min (max inp.dtRaw 0) (1/20) ∧ min (max inp.dtRaw 0) (1/20) ≤ 1/20 :=
    ⟨le_min (le_max_right _ _) (by norm_num), min_le_right _ _⟩
  refine ⟨hclamp, ?_⟩
  set dt := min (max inp.dtRaw 0) (1/20) with hdtdef
  set s := min 2 (max (1/10) inp.speed) with hsdef
  have hs0 : 0 ≤ s := le_min (by norm_num) (le_trans (by norm_num) (le_max_left _ _))
  have hs2 : s ≤ 2 := min_le_left _ _
  have hdelta0 : 0 ≤ dt * s := mul_nonneg hclamp.1 hs0
  have hdelta_s : dt * s ≤ s * (1/20) := by
    rw [mul_comm]
    exact mul_le_mul_of_nonneg_left hclamp.2 hs0
  have hdelta : dt * s ≤ 1/10 := le_trans hdelta_s (by nlinarith)
  have hstep : (0:ℚ) < 1 / FPS := by norm_num [FPS]
  have hfacc : (⌊(st.acc + dt * s) / (1 / FPS)⌋ : ℚ) * (1 / FPS) ≤ st.acc + dt * s := by
    have hfl := Int.floor_le ((st.acc + dt * s) / (1 / FPS))
    calc (⌊(st.acc + dt * s) / (1 / FPS)⌋ : ℚ) * (1 / FPS)
        ≤ (st.acc + dt * s) / (1 / FPS) * (1 / FPS) :=
          mul_le_mul_of_nonneg_right hfl hstep.le
    _ = st.acc + dt * s := div_mul_cancel₀ _ hstep.ne'
  unfold tick
  rw [← hdtdef, ← hsdef]
  dsimp only
  split_ifs with h1 h2 h3 h4 h5
  · -- not playing or non-positive duration: state unchanged
    exact ⟨by linarith, fun _ => by linarith⟩
  · -- continuous branch, 0 < d
    have harg : 0 ≤ st.time + dt * s := by linarith
    have hw := jsWrap_le_self h3 harg
    exact ⟨by linarith, fun _ => by linarith⟩
  · -- continuous branch, duration guard false (unreachable but provable)
    exact ⟨by linarith, fun _ => by linarith⟩
  · -- quantized branch, no whole frame accumulated: time unchanged
    refine ⟨by linarith, fun hx => absurd hx h2⟩
  · -- quantized branch, frames positive, 0 < d
    have hfr0 : (0:ℚ) ≤ (⌊(st.acc + dt * s) / (1 / FPS)⌋ : ℚ) := by
      exact_mod_cast (by omega : (0:ℤ) ≤ ⌊(st.acc + dt * s) / (1 / FPS)⌋)
    have harg : 0 ≤ st.time + (⌊(st.acc + dt * s) / (1 / FPS)⌋ : ℚ) * (1 / FPS) := by
      have := mul_nonneg hfr0 hstep.le
      linarith
    have hwmem := jsWrap_mem h5 (st.time + (⌊(st.acc + dt * s) / (1 / FPS)⌋ : ℚ) * (1 / FPS))
    have hwle := jsWrap_le_self h5 harg
    have hmax : max 0 (jsWrap (st.time + (⌊(st.acc + dt * s) / (1 / FPS)⌋ : ℚ) * (1 / FPS)) d)
        = jsWrap (st.time + (⌊(st.acc + dt * s) / (1 / FPS)⌋ : ℚ) * (1 / FPS)) d :=
      max_eq_right hwmem.1
    refine ⟨?_, fun hx => absurd hx h2⟩
    dsimp only
    rw [hmax]
    have hmin : min (jsWrap (st.time + (⌊(st.acc + dt * s) / (1 / FPS)⌋ : ℚ) * (1 / FPS)) d)
        (max 0 (d - 1 / FPS / 2))
        ≤ jsWrap (st.time + (⌊(st.acc + dt * s) / (1 / FPS)⌋ : ℚ) * (1 / FPS)) d :=
      min_le_left _ _
    linarith
  · -- quantized branch, frames positive, duration guard false (unreachable)
    have hfr0 : (0:ℚ) ≤ (⌊(st.acc + dt * s) / (1 / FPS)⌋ : ℚ) := by
      exact_mod_cast (by omega : (0:ℤ) ≤ ⌊(st.acc + dt * s) / (1 / FPS)⌋)
    refine ⟨?_, fun hx => absurd hx h2⟩
    dsimp only
    have := mul_nonneg hfr0 hstep.le
    linarith

/-- Witness for C7 at a concrete input: a paused-resume jump of 3 real
seconds at speed 2, unquantized, from time 0. -/
theorem tick_delta_bound_witness :
    (0 ≤ (0:ℚ) ∧ 0 ≤ (0:ℚ)) ∧
      ((0 ≤ min (max (3:ℚ) 0) (1/20) ∧ min (max (3:ℚ) 0) (1/20) ≤ 1/20)
        ∧ (tick 10 ⟨true, 2, false, 3⟩ ⟨0, 0⟩).time ≤ 0 + 0 + 1/10
        ∧ (false = false →
            (tick 10 ⟨true, 2, false, 3⟩ ⟨0, 0⟩).time ≤ 0 + min 2 (max (1/10) 2) * (1/20))) :=
  ⟨⟨le_refl 0, le_refl 0⟩, tick_delta_bound 10 ⟨true, 2, false, 3⟩ ⟨0, 0⟩ (le_refl 0) (le_refl 0)⟩

/-- C7 counterexample.  A single tick at speed 2 with a large real-time
delta advances `currentTime` from 0 by 0.1 seconds, strictly more than the
50 ms bound the claim states for every speed setting. -/
theorem tick_delta_bound_counterexample :
    (tick 10 ⟨true, 2, false, 1⟩ ⟨0, 0⟩).time = 1/10 ∧
      ¬ ((tick 10 ⟨true, 2, false, 1⟩ ⟨0, 0⟩).time ≤ 0 + 1/20) := by
  have h : (tick 10 ⟨true, 2, false, 1⟩ ⟨0, 0⟩).time = 1/10 := by
    norm_num [tick, jsWrap, jsMod, ratTrunc, FPS, min_def, max_def]
  refine ⟨h, ?_⟩
  rw [h]
  norm_num

/-! ### Frame alignment under the quantized clock -/

theorem jsWrap_frameAligned {d x : ℚ} {N : ℕ} (hdN : d = (N : ℚ) / 120)
    (hx : frameAligned x) : frameAligned (jsWrap x d) := by
  obtain ⟨k, hk⟩ := hx
  obtain ⟨m, hm⟩ := jsWrap_sub_int_mul d x
  exact ⟨k - N * m, by rw [hm, hk, hdN]; push_cast; ring⟩

theorem tick_frameAligned {d : ℚ} {N : ℕ} (hdN : d = (N : ℚ) / 120)
    (hd : 0 < d) (inp : TickInput) (hsnap : inp.snapFrames = true)
    (st : PlayState) (h0 : frameAligned st.time) :
    frameAligned (tick d inp st).time := by
  unfold tick
  dsimp only
  rw [hsnap]
  simp only [show ((true : Bool) = false) = False by simp, if_false]
  split_ifs with h1 h2
  · exact h0
  · exact h0
  · -- frames positive, 0 < d: the wrap keeps the grid, and the boundary
    -- clamp is inactive because the wrapped value is at most d - 1/120
    obtain ⟨k, hk⟩ := h0
    set dt := min (max inp.dtRaw 0) (1/20)
    set s := min 2 (max (1/10) inp.speed)
    set frames : ℤ := ⌊(st.acc + dt * s) / (1 / FPS)⌋ with hframesdef
    have hnext : frameAligned (st.time + (frames : ℚ) * (1 / FPS)) := by
      refine ⟨k + frames, ?_⟩
      rw [hk]
      norm_num [FPS]
      ring
    have hw := jsWrap_frameAligned hdN hnext
    obtain ⟨m, hm⟩ := hw
    have hmem := jsWrap_mem hd (st.time + (frames : ℚ) * (1 / FPS))
    have hm0 : (0:ℤ) ≤ m := by
      by_contra hneg
      push_neg at hneg
      have : (m:ℚ) ≤ -1 := by exact_mod_cast (by omega : m ≤ -1)
      have : (m:ℚ) / 120 ≤ -1/120 := by linarith
      rw [← hm] at this
      linarith [hmem.1]
    have hmN : m < N := by
      have hlt : (m:ℚ) / 120 < (N:ℚ) / 120 := by
        rw [← hm, ← hdN]
        exact hmem.2
      have : (m:ℚ) < (N:ℚ) := by linarith
      exact_mod_cast this
    have hstep : (1:ℚ) / FPS = 1/120 := by norm_num [FPS]
    have hclampub : jsWrap (st.time + (frames : ℚ) * (1 / FPS)) d ≤ d - 1 / FPS / 2 := by
      rw [hm, hdN, hstep]
      have : (m:ℚ) ≤ (N:ℚ) - 1 := by
        have : (m:ℤ) ≤ N - 1 := by omega
        exact_mod_cast this
      linarith
    have hdpos2 : 0 ≤ d - 1 / FPS / 2 := le_trans hmem.1 hclampub
    dsimp only
    rw [max_eq_right hmem.1, max_eq_right hdpos2, min_eq_left hclampub]
    exact ⟨m, hm⟩

theorem runTicks_frameAligned {d : ℚ} {N : ℕ} (hdN : d = (N : ℚ) / 120)
    (hd : 0 < d) (l : List TickInput) (hsnap : ∀ i ∈ l, i.snapFrames = true)
    (st : PlayState) (h0 : frameAligned st.time) :
    frameAligned (runTicks d l st).time := by
  induction l generalizing st with
  | nil => exact h0
  | cons i rest ih =>
      have hstep := tick_frameAligned hdN hd i (hsnap i (List.mem_cons_self i rest)) st h0
      exact ih (fun j hj => hsnap j (List.mem_cons_of_mem i hj)) (tick d i st) hstep

/-- C6 (amended).  Quantization idempotence holds when the animation
duration is itself a positive whole number of 120 fps frames: with
`animationDuration = N / 120`, quantized ticks keep a frame-aligned
`currentTime` on the frame grid (`currentTime * 120` an integer).  For
durations off the frame grid the modulo wrap (and the loop-boundary clamp)
can move `currentTime` off the grid, so the claim fails in general. -/
theorem quantization_idempotence (d : ℚ) (N : ℕ) (hdN : d = (N : ℚ) / 120)
    (hd : 0 < d) (l : List TickInput) (hsnap : ∀ i ∈ l, i.snapFrames = true)
    (st : PlayState) (h0 : frameAligned st.time) :
    frameAligned (runTicks d l st).time :=
  runTicks_frameAligned hdN hd l hsnap st h0

/-- Witness for C6 at a concrete input: duration 1 second = 120 frames,
one quantized tick of 10 ms at speed 1, from time 0. -/
theorem quantization_idempotence_witness :
    ((1:ℚ) = (120:ℕ) / 120 ∧ (0:ℚ) < 1 ∧ frameAligned 0) ∧
      frameAligned (runTicks 1 [⟨true, 1, true, 1/100⟩] ⟨0, 0⟩).time :=
  ⟨⟨by norm_num, by norm_num, ⟨0, by norm_num⟩⟩,
    quantization_idempotence 1 120 (by norm_num) (by norm_num)
      [⟨true, 1, true, 1/100⟩]
      (by intro i hi; simp at hi; rw [hi]) ⟨0, 0⟩ ⟨0, by norm_num⟩⟩

/-- C6 counterexample.  With `animationDuration = 0.007` (not a multiple of
the frame step), one quantized tick from the frame-aligned initial state
lands on `currentTime = 0.001`, and `0.001 * 120` is not an integer: the
claimed invariant fails for a general positive duration. -/
theorem quantization_idempotence_counterexample :
    (tick (7/1000) ⟨true, 1, true, 1/20⟩ ⟨0, 0⟩).time = 1/1000 ∧
      ¬ frameAligned (tick (7/1000) ⟨true, 1, true, 1/20⟩ ⟨0, 0⟩).time := by
  have h : (tick (7/1000) ⟨true, 1, true, 1/20⟩ ⟨0, 0⟩).time = 1/1000 := by
    norm_num [tick, jsWrap, jsMod, ratTrunc, FPS, min_def, max_def]
  refine ⟨h, ?_⟩
  rw [h]
  rintro ⟨k, hk⟩
  have h25 : (k : ℚ) * 25 = 3 := by
    field_simp at hk
    linarith
  have : (k * 25 : ℤ) = 3 := by exact_mod_cast h25
  omega

/-! ### Rounding and the seek path -/

theorem jsRound_le (x : ℚ) : (jsRound x : ℚ) ≤ x + 1/2 := by
  unfold jsRound
  exact_mod_cast Int.floor_le (x + 1/2)

theorem jsRound_ge (x : ℚ) : x - 1/2 ≤ (jsRound x : ℚ) := by
  unfold jsRound
  have h := Int.sub_one_lt_floor (x + 1/2)
  have : x + 1/2 - 1 < (⌊x + 1/2⌋ : ℚ) := h
  linarith

/-- C10.  Seek in the Unbound state: when the animation duration is not
positive, neither branch of `handleGraphSeek` fires, `setTime` is never
called, and the whole playback state is left unchanged for every signal
time and signal duration. -/
theorem seek_unbound_noop (d sd : ℚ) (snap : Bool) (tJson : ℚ)
    (st : PlayState) (hd : d ≤ 0) :
    handleGraphSeekState d sd snap tJson st = st := by
  unfold handleGraphSeekState handleGraphSeek
  have h1 : ¬ (0 < d ∧ 0 < sd) := fun h => absurd h.1 (not_lt.2 hd)
  have h2 : ¬ (0 < d) := not_lt.2 hd
  rw [if_neg h1, if_neg h2]

/-- Witness for C10 at a concrete input: zero duration, a quantized seek to
signal time 3 with signal duration 5, from time one half. -/
theorem seek_unbound_noop_witness :
    (0:ℚ) ≤ 0 ∧ handleGraphSeekState 0 5 true 3 ⟨1/2, 0⟩ = ⟨1/2, 0⟩ :=
  ⟨le_refl 0, seek_unbound_noop 0 5 true 3 ⟨1/2, 0⟩ (le_refl 0)⟩

/-- C5 (amended).  For a positive animation duration the seek result is
nonnegative and at most `animationDuration + 1/240`; it is at most
`animationDuration` whenever quantization is off or the proportional branch
fires (`signalDuration > 0`); with quantization on it is an integer
multiple of `1/120` or exactly `animationDuration` (the clamp boundary of
the proportional branch).  In the fallback branch (`signalDuration <= 0`)
the frame snap runs after the clamp, so the result can exceed the duration
by up to half a frame step. -/
theorem seek_clamp (d sd tJson cur : ℚ) (snap : Bool) (hd : 0 < d) :
    0 ≤ handleGraphSeek d sd snap tJson cur
    ∧ handleGraphSeek d sd snap tJson cur ≤ d + 1/240
    ∧ (snap = false → handleGraphSeek d sd snap tJson cur ≤ d)
    ∧ (0 < sd → handleGraphSeek d sd snap tJson cur ≤ d)
    ∧ (snap = true →
        (∃ k : ℤ, handleGraphSeek d sd snap tJson cur = (k : ℚ) / 120)
          ∨ handleGraphSeek d sd snap tJson cur = d) := by
  unfold handleGraphSeek
  by_cases hbr : 0 < d ∧ 0 < sd
  · rw [if_pos hbr]
    dsimp only
    set t := tJson / sd * d with htdef
    set r := if snap then (jsRound (t * FPS) : ℚ) / FPS else t with hrdef
    have hres0 : 0 ≤ max 0 (min d r) := le_max_left _ _
    have hresd : max 0 (min d r) ≤ d := max_le hd.le (min_le_left _ _)
    refine ⟨hres0, by linarith, fun _ => hresd, fun _ => hresd, ?_⟩
    intro hsnap
    rcases le_or_lt d r with hdr | hrd
    · right
      rw [min_eq_left hdr, max_eq_right hd.le]
    · rw [min_eq_right hrd.le]
      rcases le_or_lt r 0 with hr0 | h0r
      · left
        exact ⟨0, by rw [max_eq_left hr0]; norm_num⟩
      · left
        refine ⟨jsRound (t * FPS), ?_⟩
        rw [max_eq_right h0r.le, hrdef, hsnap]
        norm_num [FPS]
  · rw [if_neg hbr, if_pos hd]
    dsimp only
    have hsd : ¬ (0 < sd) := fun h => hbr ⟨hd, h⟩
    set c := max 0 (min d tJson) with hcdef
    have hc0 : 0 ≤ c := le_max_left _ _
    have hcd : c ≤ d := max_le hd.le (min_le_left _ _)
    cases snap with
    | false =>
        simp only [show ((false : Bool) = true) = False by simp, if_false]
        exact ⟨hc0, by linarith, fun _ => hcd, fun h => absurd h hsd,
          fun h => by simp at h⟩
    | true =>
        simp only [show ((true : Bool) = true) = True by simp, if_true]
        have hF : FPS = 120 := by norm_num [FPS]
        rw [hF]
        have hub : (jsRound (c * 120) : ℚ) ≤ c * 120 + 1/2 := jsRound_le _
        have hnn : (0:ℤ) ≤ jsRound (c * 120) := by
          unfold jsRound
          apply Int.floor_nonneg.2
          have : (0:ℚ) ≤ c * 120 := mul_nonneg hc0 (by norm_num)
          linarith
        have hnnq : (0:ℚ) ≤ (jsRound (c * 120) : ℚ) := by exact_mod_cast hnn
        refine ⟨div_nonneg hnnq (by norm_num), ?_, fun h => by simp at h,
          fun h => absurd h hsd, fun hs => Or.inl ⟨jsRound (c * 120), rfl⟩⟩
        rw [div_le_iff₀ (by norm_num : (0:ℚ) < 120)]
        linarith

/-- Witness for C5 at a concrete input: duration 1, signal duration 1, a
quantized seek to signal time one half. -/
theorem seek_clamp_witness :
    (0:ℚ) < 1 ∧ 0 ≤ handleGraphSeek 1 1 true (1/2) 0 :=
  ⟨by norm_num, (seek_clamp 1 1 (1/2) 0 true (by norm_num)).1⟩

/-- C5 counterexample.  With `animationDuration = 1/200`, quantization on
and `signalDuration = 0` (the fallback branch), seeking to signal time
`1/200` clamps first and snaps afterwards, producing `1/120`, which lies
strictly outside the claimed interval from 0 to `animationDuration`. -/
theorem seek_clamp_counterexample :
    handleGraphSeek (1/200) 0 true (1/200) 0 = 1/120 ∧
      ¬ (handleGraphSeek (1/200) 0 true (1/200) 0 ≤ 1/200) := by
  have h : handleGraphSeek (1/200) 0 true (1/200) 0 = 1/120 := by
    norm_num [handleGraphSeek, jsRound, FPS, min_def, max_def]
  refine ⟨h, ?_⟩
  rw [h]
  norm_num

/-- C4 (amended).  Seek round-trip: for positive durations and a signal
time within range, projecting the sought animation time back to signal time
recovers `tSignal` exactly when quantization is off; with quantization on
the round trip differs from `tSignal` by at most half a frame step scaled
into the signal domain, `(signalDuration / animationDuration) * (1/240)` —
not by at most one frame step `1/120`, which fails whenever the signal
duration is much larger than the animation duration. -/
theorem seek_roundtrip (d sd tJson cur : ℚ) (hd : 0 < d) (hsd : 0 < sd)
    (h0 : 0 ≤ tJson) (h1 : tJson ≤ sd) :
    currentJsonTime (handleGraphSeek d sd false tJson cur) d sd = tJson
    ∧ |currentJsonTime (handleGraphSeek d sd true tJson cur) d sd - tJson|
        ≤ sd / d * (1/240) := by
  have hbr : 0 < d ∧ 0 < sd := ⟨hd, hsd⟩
  have ht0 : 0 ≤ tJson / sd * d := by positivity
  have htd : tJson / sd * d ≤ d := by
    have hq : tJson / sd ≤ 1 := (div_le_one hsd).2 h1
    nlinarith
  have htback : tJson / sd * d / d * sd = tJson := by
    field_simp
    ring
  constructor
  · unfold handleGraphSeek
    rw [if_pos hbr]
    dsimp only
    simp only [show ((false : Bool) = true) = False by simp, if_false]
    rw [min_eq_right htd, max_eq_right ht0]
    unfold currentJsonTime
    rw [if_pos hbr, htback]
  · unfold handleGraphSeek
    rw [if_pos hbr]
    dsimp only
    simp only [show ((true : Bool) = true) = True by simp, if_true]
    have hF : FPS = 120 := by norm_num [FPS]
    rw [hF]
    set t := tJson / sd * d with htdef
    set r := (jsRound (t * 120) : ℚ) / 120 with hrdef
    have hub : (jsRound (t * 120) : ℚ) ≤ t * 120 + 1/2 := jsRound_le _
    have hlb : t * 120 - 1/2 ≤ (jsRound (t * 120) : ℚ) := jsRound_ge _
    have hr2 : r ≤ t + 1/240 := by
      rw [hrdef, div_le_iff₀ (by norm_num : (0:ℚ) < 120)]
      linarith
    have hr1 : t - 1/240 ≤ r := by
      rw [hrdef, le_div_iff₀ (by norm_num : (0:ℚ) < 120)]
      linarith
    set c := max 0 (min d r) with hcdef
    have hc1 : t - 1/240 ≤ c := by
      have hmin : t - 1/240 ≤ min d r := le_min (by linarith) hr1
      exact le_trans hmin (le_max_right _ _)
    have hc2 : c ≤ t + 1/240 := by
      apply max_le (by linarith)
      exact le_trans (min_le_right _ _) hr2
    have hc0 : 0 ≤ c := le_max_left _ _
    unfold currentJsonTime
    rw [if_pos hbr]
    have hdiff : c / d * sd - tJson = (c - t) * (sd / d) := by
      rw [← htback]
      field_simp
      ring
    rw [hdiff, abs_mul, abs_of_pos (div_pos hsd hd)]
    have habs : |c - t| ≤ 1/240 := abs_le.2 ⟨by linarith, by linarith⟩
    calc |c - t| * (sd / d) ≤ 1/240 * (sd / d) :=
          mul_le_mul_of_nonneg_right habs (div_pos hsd hd).le
    _ = sd / d * (1/240) := by ring

/-- Witness for C4 at a concrete input: duration 2, signal duration 1,
seek to signal time one half. -/
theorem seek_roundtrip_witness :
    ((0:ℚ) < 2 ∧ (0:ℚ) < 1 ∧ (0:ℚ) ≤ 1/2 ∧ (1:ℚ)/2 ≤ 1) ∧
      (currentJsonTime (handleGraphSeek 2 1 false (1/2) 0) 2 1 = 1/2
        ∧ |currentJsonTime (handleGraphSeek 2 1 true (1/2) 0) 2 1 - 1/2|
            ≤ 1 / 2 * (1/240)) :=
  ⟨⟨by norm_num, by norm_num, by norm_num, by norm_num⟩,
    seek_roundtrip 2 1 (1/2) 0 (by norm_num) (by norm_num) (by norm_num) (by norm_num)⟩

/-- C4 counterexample.  With animation duration 1 and signal duration 1000,
a quantized seek to signal time 1 rounds the tiny animation time to 0; the
round trip returns 0, an error of a full second, far more than the one
frame step `1/120` the claim allows. -/
theorem seek_roundtrip_counterexample :
    currentJsonTime (handleGraphSeek 1 1000 true 1 0) 1 1000 = 0 ∧
      ¬ (|currentJsonTime (handleGraphSeek 1 1000 true 1 0) 1 1000 - 1| ≤ 1/120) := by
  have h : currentJsonTime (handleGraphSeek 1 1000 true 1 0) 1 1000 = 0 := by
    norm_num [handleGraphSeek, currentJsonTime, jsRound, FPS, min_def, max_def]
  refine ⟨h, ?_⟩
  rw [h]
  rw [abs_sub_comm]
  norm_num

/-! ### Millisecond inference and the timestamp column -/

theorem normalizeSheet_msRows_eval (dp : String → Option ℚ) :
    normalizeSheet dp msRows 120 =
      [⟨0, [("v", 1)]⟩, ⟨16, [("v", 2)]⟩, ⟨33, [("v", 3)]⟩,
        ⟨49, [("v", 4)]⟩, ⟨66/1000, [("v", 5)]⟩] := by
  have hkeys : ((msRows.headD []).map Prod.fst) = ["time", "v"] := by decide
  have hkeys2 : (List.map Prod.fst (msRows.head?.getD [])) = ["time", "v"] := by decide
  have h1 : findTimeKey ["time", "v"] = some "time" := by decide
  have h2 : findMsKey ["time", "v"] = none := by decide
  have h3 : findFrameKey ["time", "v"] = none := by decide
  have h4 : (["time", "v"].any fun k => strContains (jsToLower k) "timestamp") = false := by
    decide
  have h5 : (["time", "v"].find? fun k => strContains (jsToLower k) "timestamp") = none := by
    decide
  have h6 : skipValueKey "v" = false := by decide
  have h7 : skipValueKey "time" = true := by decide
  have havg : averageDelta msRows "time" = some (33/2) := by
    norm_num [averageDelta, msRows, coerceNum, getCell, List.find?, List.filterMap]
  have p1 : ("v" = "time") = False := eq_false (by decide)
  have b1 : ("time" == "v") = false := by decide
  have b2 : ("v" == "v") = true := by decide
  have b3 : ("time" == "time") = true := by decide
  have p2 : (some "v" = (none : Option String)) = False := eq_false (by simp)
  have hlen : msRows.length = 5 := by decide
  have hemp : msRows.isEmpty = false := by decide
  have hr0 : msRows.getD 0 [] = [("time", Cell.num 0), ("v", Cell.num 1)] := by decide
  have hr1 : msRows.getD 1 [] = [("time", Cell.num 16), ("v", Cell.num 2)] := by decide
  have hr2 : msRows.getD 2 [] = [("time", Cell.num 33), ("v", Cell.num 3)] := by decide
  have hr3 : msRows.getD 3 [] = [("time", Cell.num 49), ("v", Cell.num 4)] := by decide
  have hr4 : msRows.getD 4 [] = [("time", Cell.num 66), ("v", Cell.num 5)] := by decide
  norm_num [normalizeSheet, hkeys, hkeys2, h1, h2, h3, h4, h5, h6, h7, havg,
    p1, p2, b1, b2, b3, hlen, hemp, hr0, hr1, hr2, hr3, hr4,
    num, getCell, List.find?, List.filterMap, List.range_succ]

/-- C2 (amended).  Millisecond inference is applied per value, not per
column: with no ms-named sibling, a detected `time` column whose average
successive absolute difference exceeds 10 has each individual value
divided by 1000 only when that value itself exceeds 50.  The example
column 0, 16, 33, 49, 66 therefore normalizes to t values
0, 16, 33, 49, 0.066 — only the final value is rescaled. -/
theorem millisecond_inference_per_value (dp : String → Option ℚ) :
    (normalizeSheet dp msRows 120).map NRow.t = [0, 16, 33, 49, 66/1000] := by
  rw [normalizeSheet_msRows_eval]
  rfl

/-- Witness for C2 (amended) at the concrete `Date.parse` model that
always returns NaN (the numeric cells never consult it). -/
theorem millisecond_inference_per_value_witness :
    (normalizeSheet noDate msRows 120).map NRow.t = [0, 16, 33, 49, 66/1000] :=
  millisecond_inference_per_value noDate

/-- C2 counterexample.  The claimed output — every value of the column
divided by 1000 — differs from what the code produces on the very
example given in the spec: the value 16 stays 16 because it does not exceed 50. -/
theorem millisecond_inference_counterexample :
    (normalizeSheet noDate msRows 120).map NRow.t = [0, 16, 33, 49, 66/1000] ∧
      ¬ ((normalizeSheet noDate msRows 120).map NRow.t
          = [0, 16/1000, 33/1000, 49/1000, 66/1000]) := by
  have h : (normalizeSheet noDate msRows 120).map NRow.t = [0, 16, 33, 49, 66/1000] := by
    rw [normalizeSheet_msRows_eval]
    rfl
  refine ⟨h, ?_⟩
  rw [h]
  intro hcontra
  have h16 : (16 : ℚ) = 16/1000 := by
    have := List.cons.injEq (α := ℚ) 0 [16, 33, 49, 66/1000]
      (0 : ℚ) [16/1000, 33/1000, 49/1000, 66/1000]
    rw [this] at hcontra
    have h2 := hcontra.2
    exact (List.cons.injEq _ _ _ _ ▸ h2).1
  norm_num at h16

theorem normalizeSheet_tsRows_eval (dp : String → Option ℚ) :
    normalizeSheet dp tsRows 120 =
      [⟨1700000000, [("v", 1)]⟩, ⟨1700000000016/1000, [("v", 2)]⟩,
        ⟨1700000000033/1000, [("v", 3)]⟩] := by
  have hkeys : ((tsRows.headD []).map Prod.fst) = ["timestamp", "v"] := by decide
  have hkeys2 : (List.map Prod.fst (tsRows.head?.getD [])) = ["timestamp", "v"] := by decide
  have h1 : findTimeKey ["timestamp", "v"] = some "timestamp" := by decide
  have h2 : findMsKey ["timestamp", "v"] = none := by decide
  have h3 : findFrameKey ["timestamp", "v"] = none := by decide
  have h6 : skipValueKey "v" = false := by decide
  have h7 : skipValueKey "timestamp" = true := by decide
  have havg : averageDelta tsRows "timestamp" = some (33/2) := by
    norm_num [averageDelta, tsRows, coerceNum, getCell, List.find?, List.filterMap]
  have p1 : ("v" = "timestamp") = False := eq_false (by decide)
  have b1 : ("timestamp" == "v") = false := by decide
  have b2 : ("v" == "v") = true := by decide
  have b3 : ("timestamp" == "timestamp") = true := by decide
  have p2 : (some "v" = (none : Option String)) = False := eq_false (by simp)
  have hlen : tsRows.length = 3 := by decide
  have hemp : tsRows.isEmpty = false := by decide
  have hr0 : tsRows.getD 0 [] = [("timestamp", Cell.num 1700000000000), ("v", Cell.num 1)] := by
    decide
  have hr1 : tsRows.getD 1 [] = [("timestamp", Cell.num 1700000000016), ("v", Cell.num 2)] := by
    decide
  have hr2 : tsRows.getD 2 [] = [("timestamp", Cell.num 1700000000033), ("v", Cell.num 3)] := by
    decide
  norm_num [normalizeSheet, hkeys, hkeys2, h1, h2, h3, h6, h7, havg,
    p1, p2, b1, b2, b3, hlen, hemp, hr0, hr1, hr2,
    num, getCell, List.find?, List.filterMap, List.range_succ]

/-- C3.  On a sheet whose only time-like column is a `timestamp` column of
epoch milliseconds, the code does not produce elapsed seconds from the
first value: the `timestamp` substring already matches the time-key search
(excel.ts line 121), so the generic time path with the per-value
millisecond heuristic runs instead, yielding absolute epoch seconds
(value / 1000); the dedicated elapsed-seconds branch (lines 135-140 and
158-161) is unreachable.  Stated for every model of `Date.parse`, which
the executed path never consults. -/
theorem timestamp_elapsed_seconds_bug (dp : String → Option ℚ) :
    (normalizeSheet dp tsRows 120).map NRow.t
        = [1700000000, 1700000000016/1000, 1700000000033/1000]
    ∧ ¬ ((normalizeSheet dp tsRows 120).map NRow.t = [0, 16/1000, 33/1000]) := by
  have h : (normalizeSheet dp tsRows 120).map NRow.t
      = [1700000000, 1700000000016/1000, 1700000000033/1000] := by
    rw [normalizeSheet_tsRows_eval]
    rfl
  refine ⟨h, ?_⟩
  rw [h]
  intro hcontra
  have h0 : (1700000000 : ℚ) = 0 := (List.cons.injEq _ _ _ _ ▸ hcontra).1
  norm_num at h0

/-- Witness for C3 at the concrete `Date.parse` model that always returns
NaN (the numeric timestamp cells never consult it). -/
theorem timestamp_elapsed_seconds_bug_witness :
    (normalizeSheet noDate tsRows 120).map NRow.t
        = [1700000000, 1700000000016/1000, 1700000000033/1000]
    ∧ ¬ ((normalizeSheet noDate tsRows 120).map NRow.t = [0, 16/1000, 33/1000]) :=
  timestamp_elapsed_seconds_bug noDate

/-! ### Header detection as an argmax -/

theorem bestHeaderAux_spec (score : Nat → Int) (n : Nat) :
    (bestHeaderAux score n = (0, -1) ∧ ∀ j, j < n → score j ≤ -1)
    ∨ ((bestHeaderAux score n).1 < n
        ∧ (bestHeaderAux score n).2 = score (bestHeaderAux score n).1
        ∧ (∀ j, j < n → score j ≤ (bestHeaderAux score n).2)
        ∧ ∀ j, j < (bestHeaderAux score n).1 → score j < (bestHeaderAux score n).2) := by
  induction n with
  | zero => exact Or.inl ⟨rfl, fun j hj => absurd hj (Nat.not_lt_zero j)⟩
  | succ n ih =>
      rcases ih with ⟨heq, hall⟩ | ⟨hlt, hsc, hall, hstrict⟩
      · by_cases hup : (bestHeaderAux score n).2 < score n
        · right
          have hstep : bestHeaderAux score (n+1)
              = (if (bestHeaderAux score n).2 < score n then (n, score n)
                  else bestHeaderAux score n) := rfl
          have hrw : bestHeaderAux score (n+1) = (n, score n) := by
            rw [hstep, if_pos hup]
          rw [hrw]
          have hminus : (-1 : Int) < score n := by rw [heq] at hup; exact hup
          refine ⟨Nat.lt_succ_self n, rfl, ?_, ?_⟩
          · intro j hj
            rcases Nat.lt_succ_iff_lt_or_eq.1 hj with hj' | hj'
            · exact le_trans (hall j hj') hminus.le
            · rw [hj']
          · intro j hj
            exact lt_of_le_of_lt (hall j hj) hminus
        · left
          have hstep : bestHeaderAux score (n+1)
              = (if (bestHeaderAux score n).2 < score n then (n, score n)
                  else bestHeaderAux score n) := rfl
          have hrw : bestHeaderAux score (n+1) = bestHeaderAux score n := by
            rw [hstep, if_neg hup]
          rw [hrw, heq]
          refine ⟨rfl, fun j hj => ?_⟩
          rcases Nat.lt_succ_iff_lt_or_eq.1 hj with hj' | hj'
          · exact hall j hj'
          · rw [hj']
            rw [heq] at hup
            exact not_lt.1 hup
      · right
        by_cases hup : (bestHeaderAux score n).2 < score n
        · have hstep : bestHeaderAux score (n+1)
              = (if (bestHeaderAux score n).2 < score n then (n, score n)
                  else bestHeaderAux score n) := rfl
          have hrw : bestHeaderAux score (n+1) = (n, score n) := by
            rw [hstep, if_pos hup]
          rw [hrw]
          refine ⟨Nat.lt_succ_self n, rfl, ?_, ?_⟩
          · intro j hj
            rcases Nat.lt_succ_iff_lt_or_eq.1 hj with hj' | hj'
            · exact le_trans (hall j hj') hup.le
            · rw [hj']
          · intro j hj
            exact lt_of_le_of_lt (hall j hj) hup
        · have hstep : bestHeaderAux score (n+1)
              = (if (bestHeaderAux score n).2 < score n then (n, score n)
                  else bestHeaderAux score n) := rfl
          have hrw : bestHeaderAux score (n+1) = bestHeaderAux score n := by
            rw [hstep, if_neg hup]
          rw [hrw]
          refine ⟨Nat.lt_succ_of_lt hlt, hsc, ?_, hstrict⟩
          intro j hj
          rcases Nat.lt_succ_iff_lt_or_eq.1 hj with hj' | hj'
          · exact hall j hj'
          · rw [hj']
            exact not_lt.1 hup

/-- C8 (amended).  Header detection picks the lowest-index score maximizer
among the first `min(20, rowCount)` rows, and all rows after it become the
data rows — provided some scanned row scores above the initial loop
sentinel of -1 (true whenever a scanned row has two or more non-empty
string cells, or any time or frame bonus).  When every scanned row scores
at or below -1 (scores -2 and -3 occur for rows with at most one non-empty
string cell and no bonus), the loop never updates and row 0 is chosen even
if a later row scores higher. -/
theorem header_detection (table : List (List Cell))
    (h : ∃ i, i < scanUpto table ∧ -1 < rowScore (table.getD i [])) :
    (∀ j, j < scanUpto table →
        rowScore (table.getD j []) ≤ rowScore (table.getD (headerIdx table) []))
    ∧ (∀ j, j < scanUpto table →
        rowScore (table.getD j []) = rowScore (table.getD (headerIdx table) []) →
          headerIdx table ≤ j)
    ∧ headerIdx table < scanUpto table
    ∧ (detectHeaderAndExtract table).2 = table.drop (headerIdx table + 1) := by
  obtain ⟨i, hi, hiscore⟩ := h
  rcases bestHeaderAux_spec (fun i => rowScore (table.getD i [])) (scanUpto table)
    with ⟨_, hall⟩ | ⟨hlt, hsc, hall, hstrict⟩
  · exact absurd (hall i hi) (not_le.2 hiscore)
  · have hidx : headerIdx table
        = (bestHeaderAux (fun i => rowScore (table.getD i [])) (scanUpto table)).1 := rfl
    refine ⟨?_, ?_, ?_, rfl⟩
    · intro j hj
      rw [hidx, ← hsc]
      exact hall j hj
    · intro j hj hje
      rw [hidx]
      by_contra hcon
      push_neg at hcon
      have := hstrict j (hidx ▸ hcon)
      rw [hje, hidx, ← hsc] at this
      exact absurd this (lt_irrefl _)
    · rw [hidx]
      exact hlt

/-- Witness for C8 at the header-at-index-2 scenario table of the spec:
row 2 holds the names and wins with score 5. -/
theorem header_detection_witness :
    (∃ i, i < scanUpto scenarioTable ∧ -1 < rowScore (scenarioTable.getD i []))
    ∧ rowScore (scenarioTable.getD 0 [])
        ≤ rowScore (scenarioTable.getD (headerIdx scenarioTable) []) :=
  ⟨⟨2, by decide, by decide⟩,
    (header_detection scenarioTable ⟨2, by decide, by decide⟩).1 0 (by decide)⟩

/-- C8 counterexample.  On a table whose first row is numeric (score -3)
and whose second row has one string cell (score -2), no score beats the -1
sentinel, so row 0 is chosen although row 1 scores strictly higher: the
chosen row does not maximize the score. -/
theorem header_detection_counterexample :
    headerIdx titleTable = 0
    ∧ (1 < scanUpto titleTable)
    ∧ rowScore (titleTable.getD 0 []) < rowScore (titleTable.getD 1 []) := by
  refine ⟨by decide, by decide, by decide⟩

/-! ### Injectivity of the decimal rendering of a counter -/

theorem charVal_digitChar {k : ℕ} (hk : k < 10) :
    charVal (Nat.digitChar k) = k := by
  interval_cases k <;> decide

theorem digitsVal_append_single (l : List Char) (c : Char) :
    digitsVal (l ++ [c]) = 10 * digitsVal l + charVal c := by
  unfold digitsVal
  rw [List.foldl_append]
  rfl

theorem toDigitsCore_spec :
    ∀ (fuel n : ℕ) (ds : List Char), n < fuel →
      ∃ l, Nat.toDigitsCore 10 fuel n ds = l ++ ds ∧ l ≠ [] ∧ digitsVal l = n := by
  intro fuel
  induction fuel with
  | zero => intro n ds h; exact absurd h (Nat.not_lt_zero n)
  | succ fuel ih =>
      intro n ds h
      have hstep : Nat.toDigitsCore 10 (fuel + 1) n ds
          = (if n / 10 = 0 then Nat.digitChar (n % 10) :: ds
              else Nat.toDigitsCore 10 fuel (n / 10) (Nat.digitChar (n % 10) :: ds)) := rfl
      by_cases h0 : n / 10 = 0
      · refine ⟨[Nat.digitChar (n % 10)], ?_, by simp, ?_⟩
        · rw [hstep, if_pos h0]
          rfl
        · have hn10 : n < 10 := by
            by_contra hge
            push_neg at hge
            have : 1 ≤ n / 10 := (Nat.le_div_iff_mul_le (by norm_num)).2 (by omega)
            omega
          have : n % 10 = n := Nat.mod_eq_of_lt hn10
          unfold digitsVal
          simp [this, charVal_digitChar hn10]
      · have hn0 : 0 < n := by
          by_contra hz
          push_neg at hz
          interval_cases n
          simp at h0
        have hlt : n / 10 < n := Nat.div_lt_self hn0 (by norm_num)
        have hfuel : n / 10 < fuel := by omega
        obtain ⟨l', hl', hne', hval'⟩ := ih (n / 10) (Nat.digitChar (n % 10) :: ds) hfuel
        refine ⟨l' ++ [Nat.digitChar (n % 10)], ?_, by simp [hne'], ?_⟩
        · rw [hstep, if_neg h0, hl']
          simp
        · rw [digitsVal_append_single, hval',
            charVal_digitChar (Nat.mod_lt n (by norm_num))]
          omega

theorem natRepr_inj {m n : ℕ} (h : Nat.repr m = Nat.repr n) : m = n := by
  have hdig : Nat.toDigits 10 m = Nat.toDigits 10 n := by
    have := congrArg String.data h
    simpa [Nat.repr, List.asString] using this
  obtain ⟨lm, hlm, _, hvm⟩ := toDigitsCore_spec (m + 1) m [] (Nat.lt_succ_self m)
  obtain ⟨ln, hln, _, hvn⟩ := toDigitsCore_spec (n + 1) n [] (Nat.lt_succ_self n)
  have hm : Nat.toDigits 10 m = lm := by
    rw [Nat.toDigits, hlm, List.append_nil]
  have hn : Nat.toDigits 10 n = ln := by
    rw [Nat.toDigits, hln, List.append_nil]
  rw [hm, hn] at hdig
  rw [← hvm, ← hvn, hdig]

/-! ### Distinctness of deduplicated headers -/

theorem append_sep_inj {α : Type} {c : α} :
    ∀ (a₁ : List α) {a₂ b₁ b₂ : List α}, c ∉ a₁ → c ∉ a₂ →
      a₁ ++ c :: b₁ = a₂ ++ c :: b₂ → a₁ = a₂ ∧ b₁ = b₂ := by
  intro a₁
  induction a₁ with
  | nil =>
      intro a₂ b₁ b₂ _ h₂ h
      cases a₂ with
      | nil => simpa using h
      | cons x t =>
          simp only [List.nil_append, List.cons_append, List.cons.injEq] at h
          exact absurd (h.1 ▸ List.mem_cons_self x t) h₂
  | cons x t ih =>
      intro a₂ b₁ b₂ h₁ h₂ h
      cases a₂ with
      | nil =>
          simp only [List.nil_append, List.cons_append, List.cons.injEq] at h
          exact absurd (h.1.symm ▸ List.mem_cons_self x t) h₁
      | cons y s =>
          simp only [List.cons_append, List.cons.injEq] at h
          have hx : c ∉ t := fun hm => h₁ (List.mem_cons_of_mem x hm)
          have hy : c ∉ s := fun hm => h₂ (List.mem_cons_of_mem y hm)
          obtain ⟨hts, hb⟩ := ih hx hy h.2
          exact ⟨by rw [h.1, hts], hb⟩

theorem renderName_inj {h₁ h₂ : String} {n₁ n₂ : ℕ}
    (hp₁ : parenFree h₁) (hp₂ : parenFree h₂)
    (he : renderName h₁ n₁ = renderName h₂ n₂) : h₁ = h₂ ∧ n₁ = n₂ := by
  unfold renderName at he
  have hps : (" (" : String).data = [' ', '('] := rfl
  have hcl : (")" : String).data = [')'] := rfl
  by_cases e₁ : n₁ = 1 <;> by_cases e₂ : n₂ = 1
  · rw [if_pos e₁, if_pos e₂] at he
    exact ⟨he, e₁.trans e₂.symm⟩
  · rw [if_pos e₁, if_neg e₂] at he
    exfalso
    apply hp₁
    rw [he]
    simp [String.data_append, hps]
  · rw [if_neg e₁, if_pos e₂] at he
    exfalso
    apply hp₂
    rw [← he]
    simp [String.data_append, hps]
  · rw [if_neg e₁, if_neg e₂] at he
    have hd := congrArg String.data he
    simp only [String.data_append, hps, hcl, List.append_assoc, List.cons_append,
      List.nil_append] at hd
    simp only [show ∀ (l : List Char) r, l ++ ' ' :: '(' :: r = (l ++ [' ']) ++ '(' :: r by
        intro l r; simp] at hd
    have hsep : ¬ '(' ∈ (h₁.data ++ [' ']) ∧ ¬ '(' ∈ (h₂.data ++ [' ']) := by
      constructor
      · intro hm
        rcases List.mem_append.1 hm with hm | hm
        · exact hp₁ hm
        · simp at hm
      · intro hm
        rcases List.mem_append.1 hm with hm | hm
        · exact hp₂ hm
        · simp at hm
    obtain ⟨ha, hb⟩ := append_sep_inj _ hsep.1 hsep.2 hd
    have hh : h₁ = h₂ := by
      apply String.ext
      exact List.append_cancel_right ha
    have hrepr : Nat.repr n₁ = Nat.repr n₂ := by
      apply String.ext
      exact List.append_cancel_right hb
    exact ⟨hh, natRepr_inj hrepr⟩

theorem lookupCount_cons (seen : List (String × Nat)) (h h' : String) (n : Nat) :
    lookupCount ((h, n) :: seen) h' = if h' = h then n else lookupCount seen h' := by
  unfold lookupCount
  by_cases he : h' = h
  · have : (h == h') = true := by subst he; simp
    simp [List.find?, this, he]
  · have : (h == h') = false := by
      apply beq_false_of_ne
      intro hcon
      exact he hcon.symm
    simp [List.find?, this, he]

theorem mem_dedupeAux :
    ∀ (hs : List String) (seen : List (String × Nat)) (pre : List String),
      (∀ s, lookupCount seen s = pre.count s) →
      ∀ out ∈ dedupeAux seen hs,
        ∃ h m, h ∈ hs ∧ pre.count h < m ∧ out = renderName h m := by
  intro hs
  induction hs with
  | nil => intro seen pre _ out hout; simp [dedupeAux] at hout
  | cons h rest ih =>
      intro seen pre hinv out hout
      rw [show dedupeAux seen (h :: rest)
          = renderName h (lookupCount seen h + 1)
            :: dedupeAux ((h, lookupCount seen h + 1) :: seen) rest from rfl] at hout
      have hinv2 : ∀ s, lookupCount ((h, lookupCount seen h + 1) :: seen) s
          = (pre ++ [h]).count s := by
        intro s
        rw [lookupCount_cons, List.count_append]
        by_cases hsh : s = h
        · rw [if_pos hsh, hinv, hsh]
          simp [List.count_cons]
        · rw [if_neg hsh, hinv]
          have : [h].count s = 0 := by
            simp [List.count_cons, List.count_nil]
            intro hcon
            exact hsh hcon.symm
          rw [this]
          omega
      rcases List.mem_cons.1 hout with hout | hout
      · exact ⟨h, lookupCount seen h + 1, List.mem_cons_self h rest,
          by rw [hinv h]; omega, hout⟩
      · obtain ⟨h', m, hmem, hcnt, heq⟩ := ih _ _ hinv2 out hout
        refine ⟨h', m, List.mem_cons_of_mem h hmem, ?_, heq⟩
        have : pre.count h' ≤ (pre ++ [h]).count h' := by
          rw [List.count_append]
          omega
        omega

theorem nodup_dedupeAux :
    ∀ (hs : List String) (seen : List (String × Nat)) (pre : List String),
      (∀ s, lookupCount seen s = pre.count s) →
      (∀ s ∈ hs, parenFree s) →
      (dedupeAux seen hs).Nodup := by
  intro hs
  induction hs with
  | nil => intro seen pre _ _; simp [dedupeAux]
  | cons h rest ih =>
      intro seen pre hinv hp
      rw [show dedupeAux seen (h :: rest)
          = renderName h (lookupCount seen h + 1)
            :: dedupeAux ((h, lookupCount seen h + 1) :: seen) rest from rfl]
      have hinv2 : ∀ s, lookupCount ((h, lookupCount seen h + 1) :: seen) s
          = (pre ++ [h]).count s := by
        intro s
        rw [lookupCount_cons, List.count_append]
        by_cases hsh : s = h
        · rw [if_pos hsh, hinv, hsh]
          simp [List.count_cons]
        · rw [if_neg hsh, hinv]
          have : [h].count s = 0 := by
            simp [List.count_cons, List.count_nil]
            intro hcon
            exact hsh hcon.symm
          rw [this]
          omega
      refine List.nodup_cons.2 ⟨?_, ih _ _ hinv2 (fun s hs => hp s (List.mem_cons_of_mem h hs))⟩
      intro hmem
      obtain ⟨h', m, hmem', hcnt, heq⟩ := mem_dedupeAux rest _ _ hinv2 _ hmem
      obtain ⟨hh, hn⟩ := renderName_inj (hp h (List.mem_cons_self h rest))
        (hp h' (List.mem_cons_of_mem h hmem')) heq
      rw [← hh] at hcnt
      rw [List.count_append] at hcnt
      have hc1 : [h].count h = 1 := by simp
      rw [hinv h] at hn
      omega

/-- C9 (amended).  The deduplicated header names are pairwise distinct
provided no input name contains the character ( — in particular whenever
no input name already has the generated form `name (k)`.  An input that
does contain such a name can collide with a generated one, so the clause
of the claim about such inputs fails. -/
theorem dedupe_distinct (hs : List String) (hp : ∀ s ∈ hs, parenFree s) :
    (dedupeHeaders hs).Nodup :=
  nodup_dedupeAux hs [] [] (fun s => by simp [lookupCount, List.count_nil]) hp

/-- Witness for C9 at the dedup-law example of the spec: the names X, X,
Y, X contain no parenthesis and deduplicate to the distinct
X, X (2), Y, X (3). -/
theorem dedupe_distinct_witness :
    (∀ s ∈ ["X", "X", "Y", "X"], parenFree s)
      ∧ (dedupeHeaders ["X", "X", "Y", "X"]).Nodup :=
  ⟨by decide, dedupe_distinct ["X", "X", "Y", "X"] (by decide)⟩

/-- C9 counterexample.  A raw header row already containing the name
`X (2)` next to two occurrences of `X` materializes to X, X (2), X (2):
the dedup output is not pairwise distinct, refuting the clause of the
claim about inputs that already contain `name (k)` forms. -/
theorem dedupe_distinct_counterexample :
    materializeHeaders [Cell.str "X", Cell.str "X", Cell.str "X (2)"]
        = ["X", "X (2)", "X (2)"]
      ∧ ¬ (materializeHeaders [Cell.str "X", Cell.str "X", Cell.str "X (2)"]).Nodup := by
  refine ⟨by decide, by decide⟩
